import Mathlib

/-!
Verification development for the expense tracker screen (src/ExpenseScreen.js).

The screen keeps a SQLite table of expense rows and derives filtered lists,
totals, per-category totals and a bar chart from the in-memory row list.
The embedding below translates the row data model, the store mutations
(addExpense, handleSaveEdit), the listAll query order, the date-window
predicates (isInCurrentWeek, isInCurrentMonth), filteredExpenses,
totalSpending, totalsByCategory, chartData and the bar-height formula.

Modelling conventions:
- JS numbers are modelled exactly as rationals, with NaN adjoined as the
  `none` case of `Option Rat`; the arithmetic used by the screen (addition,
  max, division by a positive value, scaling) is exact, so no rounding
  behaviour is lost.
- The timezone is fixed to UTC, so a parsed ISO date (UTC midnight) and the
  civil calendar fields of the current day live in one frame; the time of
  day of `today` only feeds the setHours(0,0,0,0) truncation, so `today`
  is passed as a civil date.
- The date strings accepted by the model are canonical ISO `YYYY-MM-DD`
  forms with calendar validation, the format the store itself writes;
  other engine-specific Date input formats are outside the model.
- Number coercions cover plain decimal numerals (optional sign, digits,
  optional fraction); exponent, hexadecimal and Infinity forms are outside
  the model and no claim depends on them.
- A JS object is represented by its insertion-ordered association list;
  the observable enumeration order of Object.entries / Object.keys
  (array-index keys ascending first, then the remaining keys in insertion
  order) is a separate function `objEntries`.
-/

/-- JS runtime values that can occur in the amount field of a row:
numbers (exact rationals), the NaN value, null, undefined, and strings. -/
inductive JSVal where
  | num (q : ℚ)
  | nan
  | null
  | undef
  | str (s : String)
deriving DecidableEq, Repr

/-- JS truthiness on the modelled values: 0, NaN, null, undefined and the
empty string are falsy, everything else is truthy. -/
def JSVal.truthy : JSVal → Bool
  | .num q => decide (q ≠ 0)
  | .nan => false
  | .null => false
  | .undef => false
  | .str s => decide (s ≠ "")

/-- Numeric value of a decimal digit character. -/
def digToNat (c : Char) : Nat := c.toNat - 48

/-- Whitespace trim on both ends of a char list. -/
def trimChars (cs : List Char) : List Char :=
  ((cs.dropWhile Char.isWhitespace).reverse.dropWhile Char.isWhitespace).reverse

/-- Model of the JS String trim used before validation and storage:
whitespace stripped from both ends. The JS whitespace set also has a few
exotic members (NBSP and friends); the usual ASCII whitespace modelled
here is what the inputs of this screen can contain. -/
def jsTrim (s : String) : String := (trimChars s.data).asString

/-- Strict lexicographic comparison of char lists by code point, the
order memcmp induces on their UTF-8 encodings. -/
def lexLt : List Char → List Char → Bool
  | [], [] => false
  | [], _ :: _ => true
  | _ :: _, [] => false
  | a :: as, b :: bs =>
    if a.toNat < b.toNat then true
    else if a.toNat = b.toNat then lexLt as bs else false

/-- The order SQLite puts on two TEXT values: bytewise comparison of the
UTF-8 encodings, equivalently code-point-lexicographic. -/
def textLt (a b : String) : Bool := lexLt a.data b.data

/-- Reads the maximal leading run of decimal digits, returning the
accumulated value, the count of digits read, and the rest of the input. -/
def readDigits : List Char → Nat → Nat → Nat × Nat × List Char
  | [], acc, n => (acc, n, [])
  | c :: cs, acc, n =>
    if c.isDigit then readDigits cs (acc * 10 + digToNat c) (n + 1)
    else (acc, n, c :: cs)

/-- Consumes an optional leading sign; returns whether the value is negated
and the rest of the input. -/
def parseSign : List Char → Bool × List Char
  | '-' :: cs => (true, cs)
  | '+' :: cs => (false, cs)
  | cs => (false, cs)

/-- Reads a decimal numeral prefix `digits [. digits]`; fails when no digit
is present at all. Returns the value and the unread rest. -/
def readDecimal (cs : List Char) : Option (ℚ × List Char) :=
  let (ip, nInt, r1) := readDigits cs 0 0
  match r1 with
  | '.' :: r2 =>
    let (fp, nFrac, r3) := readDigits r2 0 0
    if nInt + nFrac = 0 then none
    else some ((ip : ℚ) + (fp : ℚ) / ((10 : ℚ) ^ nFrac), r3)
  | _ => if nInt = 0 then none else some ((ip : ℚ), r1)

/-- Model of JS parseFloat on the decimal forms the screen can receive:
leading whitespace is skipped, an optional sign is read, then the longest
`digits [. digits]` prefix; the result is NaN (none) when no digit can be
read. Trailing garbage is ignored, as parseFloat does. -/
def parseFloatQ (s : String) : Option ℚ :=
  let cs := s.data.dropWhile Char.isWhitespace
  let (neg, cs1) := parseSign cs
  match readDecimal cs1 with
  | none => none
  | some (q, _) => some (if neg then -q else q)

/-- Model of the JS Number coercion on strings: both ends are trimmed, the
empty string is 0, otherwise the whole remaining string must be a signed
decimal numeral, and anything else is NaN (none). -/
def jsStrToNum (s : String) : Option ℚ :=
  match trimChars s.data with
  | [] => some 0
  | cs =>
    let (neg, cs1) := parseSign cs
    match readDecimal cs1 with
    | some (q, []) => some (if neg then -q else q)
    | _ => none

/-- JS Number coercion on the modelled values; none stands for NaN. -/
def JSVal.toNum : JSVal → Option ℚ
  | .num q => some q
  | .nan => none
  | .null => some 0
  | .undef => none
  | .str s => jsStrToNum s

/-- NaN-propagating addition on JS numbers (none is NaN). -/
def jsAdd : Option ℚ → Option ℚ → Option ℚ
  | some a, some b => some (a + b)
  | _, _ => none

/-- NaN-propagating binary maximum, as Math.max behaves on two numbers. -/
def jsMax2 : Option ℚ → Option ℚ → Option ℚ
  | some a, some b => some (max a b)
  | _, _ => none

/-- An expense row as stored in the expenses table and held in the
component state: id INTEGER PRIMARY KEY, amount REAL, category TEXT,
note TEXT nullable, date TEXT. The amount field is kept as a JS value so
that the behaviour of the aggregation guards on degenerate amounts can be
stated; the category field distinguishes a missing value from a string. -/
structure Record where
  id : Int
  amount : JSVal
  category : Option String
  note : Option String
  date : String
deriving DecidableEq, Repr

/-- A civil calendar date, the fields getFullYear / getMonth+1 / getDate
of a JS Date in the fixed UTC frame. -/
structure CivilDate where
  year : Int
  month : Nat
  day : Nat
deriving DecidableEq, Repr

/-- Gregorian leap-year rule. -/
def isLeapYear (y : Int) : Bool := (y % 4 == 0 && y % 100 != 0) || y % 400 == 0

/-- Length of a month in the proleptic Gregorian calendar. -/
def daysInMonth (y : Int) (m : Nat) : Nat :=
  if m = 2 then (if isLeapYear y then 29 else 28)
  else if m = 4 ∨ m = 6 ∨ m = 9 ∨ m = 11 then 30
  else 31

/-- Days since 1970-01-01 of a civil date, by the standard era
decomposition of the proleptic Gregorian calendar. -/
def daysFromCivil (cd : CivilDate) : Int :=
  let y : Int := if cd.month ≤ 2 then cd.year - 1 else cd.year
  let m : Int := cd.month
  let d : Int := cd.day
  let era : Int := (if 0 ≤ y then y else y - 399) / 400
  let yoe : Int := y - era * 400
  let doy : Int := (153 * (m + (if 2 < m then -3 else 9)) + 2) / 5 + d - 1
  let doe : Int := yoe * 365 + yoe / 4 - yoe / 100 + doy
  era * 146097 + doe - 719468

/-- Day-of-week index of a day count, as JS getDay reports it:
0 = Sunday through 6 = Saturday; 1970-01-01 was a Thursday (index 4). -/
def dayOfWeekJS (days : Int) : Int := (days + 4) % 7

/-- Parses a canonical ISO YYYY-MM-DD string with calendar validation, the
behaviour of new Date(s) on the date-only ISO form (out-of-range components
give an Invalid Date). Non-ISO engine-specific formats are outside the
model; the store only ever writes this canonical form. -/
def parseYMD (s : String) : Option CivilDate :=
  match s.data with
  | [y1, y2, y3, y4, h1, m1, m2, h2, d1, d2] =>
    if y1.isDigit && y2.isDigit && y3.isDigit && y4.isDigit && h1 == '-'
        && m1.isDigit && m2.isDigit && h2 == '-' && d1.isDigit && d2.isDigit then
      let y : Int := (digToNat y1 * 1000 + digToNat y2 * 100 + digToNat y3 * 10 + digToNat y4 : Nat)
      let mo : Nat := digToNat m1 * 10 + digToNat m2
      let dy : Nat := digToNat d1 * 10 + digToNat d2
      if 1 ≤ mo ∧ mo ≤ 12 ∧ 1 ≤ dy ∧ dy ≤ daysInMonth y mo then some ⟨y, mo, dy⟩
      else none
    else none
  | _ => none

/-- Model of isInCurrentWeek: the date string is parsed (an unparseable
date is immediately false), the start of the week is today truncated to
midnight minus getDay(today) days, the end is seven days later, and the
record passes when its midnight instant lies in the half-open window.
All compared instants are midnights, so day counts compare exactly as the
millisecond instants of the source do. -/
def isInCurrentWeek (dateStr : String) (today : CivilDate) : Bool :=
  match parseYMD dateStr with
  | none => false
  | some cd =>
    let d := daysFromCivil cd
    let t := daysFromCivil today
    let startOfWeek := t - dayOfWeekJS t
    decide (startOfWeek ≤ d ∧ d < startOfWeek + 7)

/-- Model of isInCurrentMonth: the date string is parsed (unparseable is
false) and its calendar year and month are compared with those of today. -/
def isInCurrentMonth (dateStr : String) (today : CivilDate) : Bool :=
  match parseYMD dateStr with
  | none => false
  | some cd => decide (cd.year = today.year ∧ cd.month = today.month)

/-- Model of the filteredExpenses memo: ALL is a passthrough, WEEK and
MONTH filter by the predicates above, any other filter value falls through
to the full list. -/
def filteredExpenses (expenses : List Record) (filter : String) (today : CivilDate) :
    List Record :=
  if filter = "ALL" then expenses
  else if filter = "WEEK" then expenses.filter (fun e => isInCurrentWeek e.date today)
  else if filter = "MONTH" then expenses.filter (fun e => isInCurrentMonth e.date today)
  else expenses

/-- The amount a row feeds into the aggregations:
`e.amount ? Number(e.amount) : 0`. A falsy amount (missing, null, 0, NaN,
empty string) contributes 0; a truthy amount is coerced with Number, which
is NaN (none) for a non-numeric string. -/
def amountContrib (e : Record) : Option ℚ :=
  if e.amount.truthy then e.amount.toNum else some 0

/-- Model of the totalSpending memo: a left fold of JS addition of the
per-row contributions over the displayed rows, starting from 0. -/
def totalSpending (rs : List Record) : Option ℚ :=
  rs.foldl (fun sum e => jsAdd sum (amountContrib e)) (some 0)

/-- The category label a row is grouped under:
`e.category || 'Uncategorized'`, so a missing or empty category falls back
to the Uncategorized label. -/
def catOf (e : Record) : String :=
  match e.category with
  | some s => if s = "" then "Uncategorized" else s
  | none => "Uncategorized"

/-- Property read map[k] on the insertion-ordered representation of a JS
object; none when the key is absent (undefined). -/
def objGet (m : List (String × Option ℚ)) (k : String) : Option (Option ℚ) :=
  match m with
  | [] => none
  | (k', v) :: rest => if k' = k then some v else objGet rest k

/-- Property write map[k] = v: an existing key is updated in place, a new
key is appended at the end (string-key insertion order). -/
def objSet (m : List (String × Option ℚ)) (k : String) (v : Option ℚ) :
    List (String × Option ℚ) :=
  match m with
  | [] => [(k, v)]
  | (k', v') :: rest => if k' = k then (k', v) :: rest else (k', v') :: objSet rest k v

/-- Truthiness of a JS number: NaN and 0 are falsy. -/
def numTruthy : Option ℚ → Bool
  | some q => decide (q ≠ 0)
  | none => false

/-- One loop iteration of the totalsByCategory memo:
`map[cat] = (map[cat] || 0) + amt`. Note that the read falls back to 0 not
only for an absent key but also when the stored value is falsy, so an
existing NaN entry is reset to 0 before the addition. -/
def totalsStep (m : List (String × Option ℚ)) (e : Record) : List (String × Option ℚ) :=
  let cat := catOf e
  let amt := amountContrib e
  let prev : Option ℚ :=
    match objGet m cat with
    | some v => if numTruthy v then v else some 0
    | none => some 0
  objSet m cat (jsAdd prev amt)

/-- Model of the totalsByCategory memo: the object built by folding the
loop body over the displayed rows, represented in insertion order. -/
def totalsByCategory (rs : List Record) : List (String × Option ℚ) :=
  rs.foldl totalsStep []

/-- Whether a string is a canonical array-index property key in the sense
of the ECMAScript object model: the canonical decimal numeral of a natural
number below 2 ^ 32 - 1. Such keys enumerate before all other string keys,
in ascending numeric order. -/
def arrayIndexKey (s : String) : Option Nat :=
  match s.data with
  | [] => none
  | c :: cs =>
    if (c :: cs).all Char.isDigit && (c != '0' || cs.isEmpty) then
      let n := (c :: cs).foldl (fun a d => a * 10 + digToNat d) 0
      if n < 4294967295 then some n else none
    else none

/-- Numeric sort key of an entry for the array-index segment (0 for keys
that are not array indices; those entries are never sorted by it). -/
def idxVal (p : String × Option ℚ) : Nat := (arrayIndexKey p.1).getD 0

/-- Enumeration order of Object.entries / Object.keys on the modelled
object: array-index keys in ascending numeric order first, then the
remaining keys in insertion order. -/
def objEntries (m : List (String × Option ℚ)) : List (String × Option ℚ) :=
  List.insertionSort (fun p q => idxVal p ≤ idxVal q)
      (m.filter (fun p => (arrayIndexKey p.1).isSome))
    ++ m.filter (fun p => !(arrayIndexKey p.1).isSome)

/-- The maxAmount computation of chartData:
`amounts.length > 0 ? Math.max(...amounts) : 0`, where Math.max over
several values is the NaN-propagating fold of the binary maximum. -/
def jsMaxAmount (amounts : List (Option ℚ)) : Option ℚ :=
  match amounts with
  | [] => some 0
  | a :: as => as.foldl jsMax2 a

/-- Model of the chartData memo: entries = Object.entries(totals), and
maxAmount = Math.max over the amounts when there is at least one entry,
0 otherwise. -/
def chartData (totals : List (String × Option ℚ)) :
    List (String × Option ℚ) × Option ℚ :=
  let entries := objEntries totals
  let maxAmount : Option ℚ := jsMaxAmount (entries.map Prod.snd)
  (entries, maxAmount)

/-- The JS comparison v > 0 on a number that may be NaN: NaN compares
false. -/
def numGtZero : Option ℚ → Bool
  | some q => decide (0 < q)
  | none => false

/-- Bar height of a chart entry:
`chartData.maxAmount > 0 ? (amt / chartData.maxAmount) * 120 : 0`.
A NaN maximum compares false against 0, and a NaN amount makes the
computed height NaN. -/
def barHeight (amt maxAmount : Option ℚ) : Option ℚ :=
  if numGtZero maxAmount then
    match amt, maxAmount with
    | some a, some m => some (a / m * 120)
    | _, _ => none
  else some 0

/-- The store: the rows of the expenses table plus the next id the
AUTOINCREMENT key will assign. -/
structure Store where
  rows : List Record
  nextId : Int
deriving DecidableEq, Repr

/-- The row a successful add inserts: the next id, the parsed amount, the
trimmed category, the trimmed note or null, and the ISO day of the clock. -/
def addedRow (nextId : Int) (q : ℚ) (cat : String) (note : Option String)
    (date : String) : Record :=
  { id := nextId, amount := JSVal.num q, category := some cat, note := note,
    date := date }

/-- The replacement a successful edit applies to a single row: a row whose
id matches the editing target has its four mutable fields replaced. -/
def updRow (targetId : Int) (q : ℚ) (cat : String) (note : Option String)
    (date : String) (r : Record) : Record :=
  if r.id = targetId then
    { r with amount := JSVal.num q, category := some cat, note := note,
             date := date }
  else r

/-- The start of the current week as the claim states it: today truncated
to midnight minus the Sunday-anchored day-of-week index of today. -/
def specStartOfWeek (today : CivilDate) : Int :=
  daysFromCivil today - dayOfWeekJS (daysFromCivil today)

/-- The value `s || null` for a string: null (none) when the string is
empty, the string itself otherwise. -/
def jsStrOrNull (s : String) : Option String :=
  if s = "" then none else some s

/-- Model of addExpense: parseFloat the amount field and silently bail out
on NaN or a non-positive value, trim the category and note, silently bail
out on an empty category, then INSERT a row carrying the trimmed category,
the trimmed note or null, and the ISO day of the clock. The second
component is the alert raised; the add path never alerts. -/
def addExpense (st : Store) (amount category note todayIso : String) :
    Store × Option String :=
  match parseFloatQ amount with
  | none => (st, none)
  | some amountNumber =>
    if amountNumber ≤ 0 then (st, none)
    else
      let trimmedCategory := jsTrim category
      let trimmedNote := jsTrim note
      if trimmedCategory = "" then (st, none)
      else
        let newRow : Record :=
          addedRow st.nextId amountNumber trimmedCategory (jsStrOrNull trimmedNote) todayIso
        ({ rows := st.rows ++ [newRow], nextId := st.nextId + 1 }, none)

/-- Model of handleSaveEdit: nothing happens without an editing target;
an invalid amount, empty category or empty date raise a blocking alert and
leave the store alone; otherwise the UPDATE replaces the four mutable
fields of every row whose id matches (the id is unique in a well-formed
store). The second component is the alert raised. -/
def handleSaveEdit (st : Store) (editing : Option Record)
    (editAmount editCategory editNote editDate : String) : Store × Option String :=
  match editing with
  | none => (st, none)
  | some exp =>
    match parseFloatQ editAmount with
    | none => (st, some "Please enter a valid positive amount.")
    | some amountNumber =>
      if amountNumber ≤ 0 then (st, some "Please enter a valid positive amount.")
      else
        let trimmedCategory := jsTrim editCategory
        if trimmedCategory = "" then (st, some "Category is required")
        else
          let trimmedDate := jsTrim editDate
          if trimmedDate = "" then (st, some "Date is required (YYYY-MM-DD).")
          else
            let upd : Record → Record :=
              updRow exp.id amountNumber trimmedCategory (jsStrOrNull (jsTrim editNote)) trimmedDate
            ({ st with rows := st.rows.map upd }, none)

/-- Row order of SELECT ... ORDER BY date DESC, id DESC: a row may precede
another when its date is strictly larger, or the dates tie and its id is at
least as large. SQLite compares TEXT bytewise, which on the ASCII ISO dates
the store writes coincides with the string order used here. -/
def rowOrder (a b : Record) : Prop :=
  textLt b.date a.date = true ∨ (a.date = b.date ∧ b.id ≤ a.id)

instance : DecidableRel rowOrder := fun a b =>
  inferInstanceAs (Decidable (textLt b.date a.date = true ∨ (a.date = b.date ∧ b.id ≤ a.id)))

/-- Model of loadExpenses / listAll: the stored rows sorted by the ORDER BY
key. With unique ids the key never ties, so the sorted sequence is unique
and any correct sorting realises the query result. -/
def listAll (rows : List Record) : List Record :=
  List.insertionSort rowOrder rows

/-- The strict listing order the specification describes: date strictly
descending, ids strictly descending on date ties. -/
def strictRowOrder (a b : Record) : Prop :=
  textLt b.date a.date = true ∨ (a.date = b.date ∧ b.id < a.id)

/-- Rows whose amount is falsy or coerces to an actual number; only a
truthy non-numeric amount (for example the string abc) falls outside. -/
def amountSane (e : Record) : Bool := (amountContrib e).isSome

/-- Statement-side per-row contribution as an exact rational: the Number
coercion of a truthy amount, 0 for a falsy one. For rows satisfying
amountSane this is exactly what the code adds. -/
def contribQ (e : Record) : ℚ := (amountContrib e).getD 0

/-- Statement-side update of a totals association list: add q to the entry
of key k in place, or append a fresh entry at the end. -/
def addToTotals (m : List (String × ℚ)) (k : String) (q : ℚ) : List (String × ℚ) :=
  match m with
  | [] => [(k, q)]
  | (k', v) :: rest => if k' = k then (k', v + q) :: rest else (k', v) :: addToTotals rest k q

/-- Statement-side totals: first-seen ordered association list of exact
rational sums of the per-row contributions, grouped by category label. -/
def specTotals (rs : List Record) : List (String × ℚ) :=
  rs.foldl (fun m e => addToTotals m (catOf e) (contribQ e)) []

/-- Lookup in a statement-side totals list. -/
def lookupQ (m : List (String × ℚ)) (k : String) : Option ℚ :=
  match m with
  | [] => none
  | (k', v) :: rest => if k' = k then some v else lookupQ rest k

/-- The order of first appearance of the elements of a list, duplicates
dropped. -/
def firstSeen (l : List String) : List String :=
  l.foldl (fun acc a => if a ∈ acc then acc else acc ++ [a]) []

/-- Sum of the contributions of the rows carrying a given category label. -/
def specSumFor (rs : List Record) (k : String) : ℚ :=
  ((rs.filter (fun r => catOf r = k)).map contribQ).sum

/-- Sum of the values of a totals object under JS addition, the quantity
the grand total should decompose into. -/
def sumVals (m : List (String × Option ℚ)) : Option ℚ :=
  m.foldl (fun s p => jsAdd s p.2) (some 0)

/-- Maximum of a list of rationals, 0 when the list is empty, matching the
shape `amounts.length > 0 ? Math.max(...amounts) : 0` on actual numbers. -/
def specMaxQ : List ℚ → ℚ
  | [] => 0
  | a :: as => as.foldl max a

/-- Embeds a statement-side totals list into the object representation. -/
def mapSome (m : List (String × ℚ)) : List (String × Option ℚ) :=
  m.map fun p => (p.1, some p.2)

/-! ### Order lemmas for the listAll query -/

theorem char_toNat_inj {a b : Char} (h : a.toNat = b.toNat) : a = b := by
  have h2 := congrArg Char.ofNat h
  simpa using h2

theorem lexLt_trichotomy : ∀ as bs : List Char,
    lexLt as bs = true ∨ as = bs ∨ lexLt bs as = true
  | [], [] => Or.inr (Or.inl rfl)
  | [], _ :: _ => Or.inl rfl
  | _ :: _, [] => Or.inr (Or.inr rfl)
  | a :: as, b :: bs => by
    rcases Nat.lt_trichotomy a.toNat b.toNat with h | h | h
    · left; simp [lexLt, h]
    · have hnlt : ¬ a.toNat < b.toNat := by omega
      have hnlt2 : ¬ b.toNat < a.toNat := by omega
      rcases lexLt_trichotomy as bs with h2 | h2 | h2
      · left; simp [lexLt, hnlt, h, h2]
      · right; left; rw [char_toNat_inj h, h2]
      · right; right; simp [lexLt, hnlt2, h.symm, h2]
    · right; right; simp [lexLt, h]

theorem lexLt_trans : ∀ {as bs cs : List Char},
    lexLt as bs = true → lexLt bs cs = true → lexLt as cs = true := by
  intro as
  induction as with
  | nil =>
    intro bs cs h1 h2
    cases bs with
    | nil => simp [lexLt] at h1
    | cons b bs =>
      cases cs with
      | nil => simp [lexLt] at h2
      | cons c cs => simp [lexLt]
  | cons a as ih =>
    intro bs cs h1 h2
    cases bs with
    | nil => simp [lexLt] at h1
    | cons b bs =>
      cases cs with
      | nil => simp [lexLt] at h2
      | cons c cs =>
        simp only [lexLt] at h1 h2 ⊢
        split_ifs at h1 h2 ⊢ with hab habe hbc hbce hac hace <;>
          first
          | rfl
          | omega
          | exact ih h1 h2

instance : IsTotal Record rowOrder := by
  constructor
  intro a b
  rcases lexLt_trichotomy a.date.data b.date.data with h | h | h
  · exact Or.inr (Or.inl h)
  · have hd : a.date = b.date := String.ext h
    rcases Int.le_total a.id b.id with hi | hi
    · exact Or.inr (Or.inr ⟨hd.symm, hi⟩)
    · exact Or.inl (Or.inr ⟨hd, hi⟩)
  · exact Or.inl (Or.inl h)

instance : IsTrans Record rowOrder := by
  constructor
  intro a b c hab hbc
  rcases hab with h1 | ⟨h1, h2⟩
  · rcases hbc with h3 | ⟨h3, h4⟩
    · exact Or.inl (lexLt_trans h3 h1)
    · left; rwa [h3] at h1
  · rcases hbc with h3 | ⟨h3, h4⟩
    · left; rwa [← h1] at h3
    · exact Or.inr ⟨h1.trans h3, le_trans h4 h2⟩

/-- C1: for every store state (the ids of a store are unique, being the
table primary key), listAll returns exactly the stored records, pairwise
ordered by date strictly descending and, on date ties, id strictly
descending. -/
theorem listAll_sorted_strict (rows : List Record)
    (h : (rows.map Record.id).Nodup) :
    List.Pairwise strictRowOrder (listAll rows) ∧ (listAll rows).Perm rows := by
  refine ⟨?_, List.perm_insertionSort rowOrder rows⟩
  have hs : List.Sorted rowOrder (listAll rows) :=
    List.sorted_insertionSort rowOrder rows
  have hperm := List.perm_insertionSort rowOrder rows
  have hnd : ((listAll rows).map Record.id).Nodup :=
    ((hperm.map Record.id).nodup_iff).mpr h
  have hne : List.Pairwise (fun a b : Record => a.id ≠ b.id) (listAll rows) :=
    List.pairwise_map.mp hnd
  refine (hs.and hne).imp ?_
  rintro a b ⟨hord, hne'⟩
  rcases hord with h1 | ⟨h1, h2⟩
  · exact Or.inl h1
  · exact Or.inr ⟨h1, lt_of_le_of_ne h2 (fun e => hne' (e.symm))⟩

/-- Witness for C1 at the concrete store of the specification: records
dated 2024-01-01 (id 1) and 2024-01-02 (id 2) list as id 2 then id 1. -/
theorem listAll_sorted_strict_witness :
    (([⟨1, .num 1, some "A", none, "2024-01-01"⟩,
       ⟨2, .num 1, some "A", none, "2024-01-02"⟩] : List Record).map Record.id).Nodup
    ∧ List.Pairwise strictRowOrder
        (listAll [⟨1, .num 1, some "A", none, "2024-01-01"⟩,
                  ⟨2, .num 1, some "A", none, "2024-01-02"⟩])
    ∧ listAll [⟨1, .num 1, some "A", none, "2024-01-01"⟩,
               ⟨2, .num 1, some "A", none, "2024-01-02"⟩]
        = [⟨2, .num 1, some "A", none, "2024-01-02"⟩,
           ⟨1, .num 1, some "A", none, "2024-01-01"⟩] :=
  ⟨by decide,
   (listAll_sorted_strict _ (by decide)).1,
   by decide⟩

/-! ### Validation on the add path -/

/-- C2: an add whose amount does not parse, parses non-positive, or whose
category trims to empty performs no store write and raises no alert: the
store (rows and next id, hence record count and record set) is returned
unchanged and the alert component is none. -/
theorem add_invalid_no_write (st : Store) (amount category note todayIso : String)
    (h : parseFloatQ amount = none
      ∨ (∃ q, parseFloatQ amount = some q ∧ q ≤ 0)
      ∨ jsTrim category = "") :
    addExpense st amount category note todayIso = (st, none) := by
  unfold addExpense
  rcases h with h | ⟨q, hq, hle⟩ | h
  · rw [h]
  · rw [hq]; simp [hle]
  · cases hpf : parseFloatQ amount with
    | none => rfl
    | some q =>
      by_cases hq0 : q ≤ 0
      · simp [hq0]
      · simp [hq0, h]

/-- Witness for C2 at the three rejected inputs of the specification:
amount 0, amount -5, and a category that trims to empty. -/
theorem add_invalid_no_write_witness :
    addExpense ⟨[], 1⟩ "0" "Food" "" "2024-06-15" = (⟨[], 1⟩, none)
    ∧ addExpense ⟨[], 1⟩ "-5" "Food" "" "2024-06-15" = (⟨[], 1⟩, none)
    ∧ addExpense ⟨[], 1⟩ "5" "   " "note" "2024-06-15" = (⟨[], 1⟩, none) :=
  ⟨add_invalid_no_write _ _ _ _ _ (Or.inr (Or.inl ⟨0, by decide, by decide⟩)),
   add_invalid_no_write _ _ _ _ _ (Or.inr (Or.inl ⟨-5, by decide, by decide⟩)),
   add_invalid_no_write _ _ _ _ _ (Or.inr (Or.inr (by decide)))⟩

/-- C10: on a successful add the persisted note is the trimmed note or
null when the trim is empty; on a successful edit likewise; and the stored
note value is never the empty string. -/
theorem note_trimmed_or_null :
    (∀ (st : Store) (amount category note todayIso : String) (q : ℚ),
      parseFloatQ amount = some q → 0 < q → jsTrim category ≠ "" →
      addExpense st amount category note todayIso =
        ({ rows := st.rows ++ [addedRow st.nextId q (jsTrim category) (jsStrOrNull (jsTrim note)) todayIso], nextId := st.nextId + 1 }, none))
    ∧ (∀ (st : Store) (exp : Record) (eA eC eN eD : String) (q : ℚ),
      parseFloatQ eA = some q → 0 < q → jsTrim eC ≠ "" → jsTrim eD ≠ "" →
      handleSaveEdit st (some exp) eA eC eN eD =
        ({ st with rows := st.rows.map (updRow exp.id q (jsTrim eC) (jsStrOrNull (jsTrim eN)) (jsTrim eD)) }, none))
    ∧ (∀ s : String, jsStrOrNull (jsTrim s) ≠ some ""
        ∧ (jsTrim s = "" → jsStrOrNull (jsTrim s) = none)
        ∧ (jsTrim s ≠ "" → jsStrOrNull (jsTrim s) = some (jsTrim s))) := by
  refine ⟨?_, ?_, ?_⟩
  · intro st amount category note todayIso q hq h0 hc
    unfold addExpense
    rw [hq]
    simp [not_le.mpr h0, hc]
  · intro st exp eA eC eN eD q hq h0 hc hd
    unfold handleSaveEdit
    rw [hq]
    simp [not_le.mpr h0, hc, hd]
  · intro s
    by_cases h : jsTrim s = "" <;> simp [jsStrOrNull, h]

/-- Witness for C10: adding with note of pure whitespace stores null;
editing with note of padded text stores the trimmed text. -/
theorem note_trimmed_or_null_witness :
    parseFloatQ "5" = some 5 ∧ (0 : ℚ) < 5 ∧ jsTrim " Food " ≠ ""
    ∧ addExpense ⟨[], 7⟩ "5" " Food " "   " "2024-06-15"
        = (⟨[⟨7, .num 5, some "Food", none, "2024-06-15"⟩], 8⟩, none)
    ∧ handleSaveEdit ⟨[⟨3, .num 1, some "X", some "old", "2024-01-01"⟩], 9⟩
        (some ⟨3, .num 1, some "X", some "old", "2024-01-01"⟩)
        "2" "Books" " hi " "2024-02-02"
        = (⟨[⟨3, .num 2, some "Books", some "hi", "2024-02-02"⟩], 9⟩, none) := by
  refine ⟨by decide, by decide, by decide, ?_, ?_⟩
  · exact (note_trimmed_or_null.1 ⟨[], 7⟩ "5" " Food " "   " "2024-06-15" 5
      (by decide) (by decide) (by decide)).trans (by decide)
  · exact (note_trimmed_or_null.2.1 ⟨[⟨3, .num 1, some "X", some "old", "2024-01-01"⟩], 9⟩
      ⟨3, .num 1, some "X", some "old", "2024-01-01"⟩ "2" "Books" " hi " "2024-02-02" 2
      (by decide) (by decide) (by decide) (by decide)).trans (by decide)

/-! ### Date-window filters -/

/-- C5: a record with a parseable date passes the WEEK filter exactly when
its day lies in the half-open seven-day window starting at the week start;
the week start always carries day-of-week index 0, and index 0 is Sunday
(1970-01-04, a Sunday, has index 0). -/
theorem week_filter_window (dateStr : String) (today cd : CivilDate)
    (h : parseYMD dateStr = some cd) :
    (isInCurrentWeek dateStr today = true ↔
      (specStartOfWeek today ≤ daysFromCivil cd ∧
        daysFromCivil cd < specStartOfWeek today + 7))
    ∧ dayOfWeekJS (specStartOfWeek today) = 0
    ∧ dayOfWeekJS (daysFromCivil ⟨1970, 1, 4⟩) = 0 := by
  refine ⟨?_, ?_, by decide⟩
  · simp [isInCurrentWeek, h, specStartOfWeek]
  · unfold specStartOfWeek dayOfWeekJS
    omega

/-- Witness for C5 with today = Saturday 2024-06-15: the window is
2024-06-09 (Sunday) up to but excluding 2024-06-16. -/
theorem week_filter_window_witness :
    parseYMD "2024-06-09" = some ⟨2024, 6, 9⟩
    ∧ ((isInCurrentWeek "2024-06-09" ⟨2024, 6, 15⟩ = true ↔
        (specStartOfWeek ⟨2024, 6, 15⟩ ≤ daysFromCivil ⟨2024, 6, 9⟩ ∧
          daysFromCivil ⟨2024, 6, 9⟩ < specStartOfWeek ⟨2024, 6, 15⟩ + 7))
      ∧ dayOfWeekJS (specStartOfWeek ⟨2024, 6, 15⟩) = 0
      ∧ dayOfWeekJS (daysFromCivil ⟨1970, 1, 4⟩) = 0)
    ∧ isInCurrentWeek "2024-06-09" ⟨2024, 6, 15⟩ = true
    ∧ isInCurrentWeek "2024-06-08" ⟨2024, 6, 15⟩ = false
    ∧ isInCurrentWeek "2024-06-15" ⟨2024, 6, 15⟩ = true
    ∧ isInCurrentWeek "2024-06-16" ⟨2024, 6, 15⟩ = false :=
  ⟨by decide, week_filter_window "2024-06-09" ⟨2024, 6, 15⟩ ⟨2024, 6, 9⟩ (by decide),
   by decide, by decide, by decide, by decide⟩

/-- C6: a record with a parseable date passes the MONTH filter exactly
when its calendar year and month equal those of today. -/
theorem month_filter_year_month (dateStr : String) (today cd : CivilDate)
    (h : parseYMD dateStr = some cd) :
    isInCurrentMonth dateStr today = true ↔
      (cd.year = today.year ∧ cd.month = today.month) := by
  simp [isInCurrentMonth, h]

/-- Witness for C6 at the specification example: with today 2024-06-15 a
record dated 2024-06-01 matches the MONTH filter and 2024-05-31 does not. -/
theorem month_filter_year_month_witness :
    parseYMD "2024-06-01" = some ⟨2024, 6, 1⟩
    ∧ (isInCurrentMonth "2024-06-01" ⟨2024, 6, 15⟩ = true ↔
        ((⟨2024, 6, 1⟩ : CivilDate).year = (⟨2024, 6, 15⟩ : CivilDate).year ∧
          (⟨2024, 6, 1⟩ : CivilDate).month = (⟨2024, 6, 15⟩ : CivilDate).month))
    ∧ isInCurrentMonth "2024-06-01" ⟨2024, 6, 15⟩ = true
    ∧ isInCurrentMonth "2024-05-31" ⟨2024, 6, 15⟩ = false :=
  ⟨by decide, month_filter_year_month "2024-06-01" ⟨2024, 6, 15⟩ ⟨2024, 6, 1⟩ (by decide),
   by decide, by decide⟩

/-- C7: a record whose date does not parse never matches the WEEK or MONTH
filters, while the ALL filter returns the list unchanged (so the record
stays on screen there); filtering is a total function of the embedding, so
no failure can be raised on an unparseable date. -/
theorem unparseable_date_filtering (expenses : List Record) (today : CivilDate)
    (r : Record) (h : parseYMD r.date = none) :
    filteredExpenses expenses "ALL" today = expenses
    ∧ r ∉ filteredExpenses expenses "WEEK" today
    ∧ r ∉ filteredExpenses expenses "MONTH" today := by
  refine ⟨rfl, ?_, ?_⟩
  · simp [filteredExpenses, List.mem_filter, isInCurrentWeek, h]
  · simp [filteredExpenses, List.mem_filter, isInCurrentMonth, h]

/-- Witness for C7 at a record dated by an unparseable string. -/
theorem unparseable_date_filtering_witness :
    parseYMD "hello" = none
    ∧ filteredExpenses [⟨1, .num 1, some "A", none, "hello"⟩] "ALL" ⟨2024, 6, 15⟩
        = [⟨1, .num 1, some "A", none, "hello"⟩]
    ∧ (⟨1, .num 1, some "A", none, "hello"⟩ : Record)
        ∉ filteredExpenses [⟨1, .num 1, some "A", none, "hello"⟩] "WEEK" ⟨2024, 6, 15⟩
    ∧ (⟨1, .num 1, some "A", none, "hello"⟩ : Record)
        ∉ filteredExpenses [⟨1, .num 1, some "A", none, "hello"⟩] "MONTH" ⟨2024, 6, 15⟩ := by
  have H := unparseable_date_filtering [⟨1, .num 1, some "A", none, "hello"⟩]
    ⟨2024, 6, 15⟩ ⟨1, .num 1, some "A", none, "hello"⟩ (by decide)
  exact ⟨by decide, H.1, H.2.1, H.2.2⟩

/-! ### Aggregation lemmas -/

theorem amountSane_contrib {e : Record} (h : amountSane e = true) :
    amountContrib e = some (contribQ e) := by
  unfold amountSane at h
  unfold contribQ
  cases hv : amountContrib e with
  | none => rw [hv] at h; simp at h
  | some q => simp

theorem totalSpending_go (rs : List Record) :
    ∀ q : ℚ, (∀ r ∈ rs, amountSane r = true) →
      rs.foldl (fun sum e => jsAdd sum (amountContrib e)) (some q)
        = some (q + (rs.map contribQ).sum) := by
  induction rs with
  | nil => intro q _; simp
  | cons r rs ih =>
    intro q h
    have hr : amountSane r = true := h r (by simp)
    have hrs : ∀ x ∈ rs, amountSane x = true := fun x hx => h x (by simp [hx])
    have hstep : jsAdd (some q) (amountContrib r) = some (q + contribQ r) := by
      rw [amountSane_contrib hr]; rfl
    rw [List.foldl_cons, hstep, ih (q + contribQ r) hrs]
    simp [add_assoc]

theorem totalSpending_eq_sum (rs : List Record)
    (h : ∀ r ∈ rs, amountSane r = true) :
    totalSpending rs = some ((rs.map contribQ).sum) := by
  unfold totalSpending
  rw [totalSpending_go rs 0 h, zero_add]

/-- C3 (amended): over rows whose amounts are each falsy or numeric,
totalSpending is the exact sum of the per-row contributions, where a falsy
amount (missing, null, 0, NaN, empty string) contributes 0 and a truthy
amount contributes its numeric coercion. A truthy non-numeric amount is
outside this hypothesis and drives the whole sum to NaN instead. -/
theorem totalSpending_spec (rs : List Record)
    (h : ∀ r ∈ rs, amountSane r = true) :
    totalSpending rs = some ((rs.map contribQ).sum) :=
  totalSpending_eq_sum rs h

/-- Witness for C3 (amended) at the two specification examples: the empty
list totals 0, and amounts 10 and 5.5 total 15.5. -/
theorem totalSpending_spec_witness :
    (∀ r ∈ ([] : List Record), amountSane r = true)
    ∧ totalSpending ([] : List Record) = some ((([] : List Record).map contribQ).sum)
    ∧ totalSpending ([] : List Record) = some 0
    ∧ (∀ r ∈ [(⟨1, .num 10, some "A", none, "2024-01-01"⟩ : Record),
              ⟨2, .num 5.5, some "B", none, "2024-01-01"⟩], amountSane r = true)
    ∧ totalSpending [(⟨1, .num 10, some "A", none, "2024-01-01"⟩ : Record),
          ⟨2, .num 5.5, some "B", none, "2024-01-01"⟩]
        = some (([(⟨1, .num 10, some "A", none, "2024-01-01"⟩ : Record),
            ⟨2, .num 5.5, some "B", none, "2024-01-01"⟩].map contribQ).sum)
    ∧ totalSpending [(⟨1, .num 10, some "A", none, "2024-01-01"⟩ : Record),
          ⟨2, .num 5.5, some "B", none, "2024-01-01"⟩] = some (15.5 : ℚ) := by
  have hsane : ∀ r ∈ [(⟨1, .num 10, some "A", none, "2024-01-01"⟩ : Record),
      ⟨2, .num 5.5, some "B", none, "2024-01-01"⟩], amountSane r = true := by
    norm_num [amountSane, amountContrib, JSVal.truthy, JSVal.toNum]
  refine ⟨by simp, totalSpending_spec [] (by simp), by decide, hsane,
    totalSpending_spec _ hsane, ?_⟩
  norm_num [totalSpending, amountContrib, JSVal.truthy, JSVal.toNum, jsAdd]

/-- C3 counterexample: a record whose amount is the truthy non-numeric
string abc makes totalSpending NaN (none); the claimed behaviour, that it
contributes exactly 0, would give the total 0 instead. -/
theorem totalSpending_nonnumeric_cex :
    totalSpending [⟨1, .str "abc", some "A", none, "2024-01-01"⟩] = none
    ∧ totalSpending [⟨1, .str "abc", some "A", none, "2024-01-01"⟩] ≠ some 0 :=
  ⟨by decide, by decide⟩

theorem mapSome_nil : mapSome [] = [] := rfl

theorem mapSome_cons (p : String × ℚ) (rest : List (String × ℚ)) :
    mapSome (p :: rest) = (p.1, some p.2) :: mapSome rest := rfl

theorem objGet_mapSome (m : List (String × ℚ)) (k : String) :
    objGet (mapSome m) k = (lookupQ m k).map some := by
  induction m with
  | nil => rfl
  | cons p rest ih =>
    obtain ⟨k', v⟩ := p
    by_cases h : k' = k
    · simp [mapSome_cons, objGet, lookupQ, h]
    · simp only [mapSome_cons, objGet, lookupQ, if_neg h]
      exact ih

theorem totalsStep_mapSome (m : List (String × ℚ)) (e : Record)
    (h : amountSane e = true) :
    totalsStep (mapSome m) e = mapSome (addToTotals m (catOf e) (contribQ e)) := by
  unfold totalsStep
  rw [amountSane_contrib h]
  induction m with
  | nil => simp [mapSome, objGet, objSet, addToTotals, numTruthy, jsAdd]
  | cons p rest ih =>
    obtain ⟨k', v⟩ := p
    by_cases hk : k' = catOf e
    · subst hk
      by_cases hv : v = 0 <;>
        simp [mapSome, objGet, objSet, addToTotals, numTruthy, jsAdd, hv]
    · simpa [mapSome, objGet, objSet, addToTotals, hk] using ih

theorem totals_fold_mapSome (rs : List Record) :
    ∀ m : List (String × ℚ), (∀ r ∈ rs, amountSane r = true) →
      rs.foldl totalsStep (mapSome m)
        = mapSome (rs.foldl (fun m e => addToTotals m (catOf e) (contribQ e)) m) := by
  induction rs with
  | nil => intro m _; rfl
  | cons r rs ih =>
    intro m h
    simp only [List.foldl_cons]
    rw [totalsStep_mapSome m r (h r (by simp))]
    exact ih _ (fun x hx => h x (by simp [hx]))

theorem totalsByCategory_mapSome (rs : List Record)
    (h : ∀ r ∈ rs, amountSane r = true) :
    totalsByCategory rs = mapSome (specTotals rs) := by
  unfold totalsByCategory specTotals
  have hfold := totals_fold_mapSome rs [] h
  simpa [mapSome] using hfold

theorem sumVals_go_mapSome (m : List (String × ℚ)) :
    ∀ q : ℚ, (mapSome m).foldl (fun s p => jsAdd s p.2) (some q)
      = some (q + (m.map Prod.snd).sum) := by
  induction m with
  | nil => intro q; simp [mapSome]
  | cons p rest ih =>
    intro q
    obtain ⟨k, v⟩ := p
    have hstep : jsAdd (some q) (some v) = some (q + v) := rfl
    rw [mapSome_cons, List.foldl_cons]
    simp only []
    rw [hstep, ih (q + v)]
    simp [add_assoc]

theorem sumVals_mapSome (m : List (String × ℚ)) :
    sumVals (mapSome m) = some ((m.map Prod.snd).sum) := by
  unfold sumVals
  rw [sumVals_go_mapSome m 0, zero_add]

theorem snd_sum_addToTotals (m : List (String × ℚ)) (k : String) (q : ℚ) :
    ((addToTotals m k q).map Prod.snd).sum = (m.map Prod.snd).sum + q := by
  induction m with
  | nil => simp [addToTotals]
  | cons p rest ih =>
    obtain ⟨k', v⟩ := p
    by_cases h : k' = k <;> simp [addToTotals, h, ih] <;> ring

theorem snd_sum_specTotals (rs : List Record) :
    ∀ m : List (String × ℚ),
      ((rs.foldl (fun m e => addToTotals m (catOf e) (contribQ e)) m).map Prod.snd).sum
        = (m.map Prod.snd).sum + (rs.map contribQ).sum := by
  induction rs with
  | nil => intro m; simp
  | cons r rs ih =>
    intro m
    simp only [List.foldl_cons, List.map_cons, List.sum_cons]
    rw [ih (addToTotals m (catOf r) (contribQ r)), snd_sum_addToTotals]
    ring

/-- C9 (amended): over rows whose amounts are each falsy or numeric, the
values of totalsByCategory sum to exactly totalSpending: the category
totals decompose the grand total. With a truthy non-numeric amount in a
category that later receives a number the decomposition fails, because the
loop resets an accumulated NaN to 0 while the grand total stays NaN. -/
theorem totals_decompose_total (rs : List Record)
    (h : ∀ r ∈ rs, amountSane r = true) :
    sumVals (totalsByCategory rs) = totalSpending rs := by
  rw [totalsByCategory_mapSome rs h, sumVals_mapSome, totalSpending_eq_sum rs h]
  unfold specTotals
  rw [snd_sum_specTotals rs []]
  simp

/-- Witness for C9 (amended) at a two-category store. -/
theorem totals_decompose_total_witness :
    (∀ r ∈ [(⟨1, .num 3, some "Food", none, "2024-01-01"⟩ : Record),
            ⟨2, .num 2, some "Rent", none, "2024-01-01"⟩], amountSane r = true)
    ∧ sumVals (totalsByCategory [(⟨1, .num 3, some "Food", none, "2024-01-01"⟩ : Record),
          ⟨2, .num 2, some "Rent", none, "2024-01-01"⟩])
        = totalSpending [(⟨1, .num 3, some "Food", none, "2024-01-01"⟩ : Record),
          ⟨2, .num 2, some "Rent", none, "2024-01-01"⟩] :=
  ⟨by decide, totals_decompose_total _ (by decide)⟩

/-- C9 counterexample: with amounts abc then 5 in one category, the
category values sum to 5 while totalSpending is NaN (none), so the claimed
equality fails on the code. -/
theorem totals_decompose_total_cex :
    sumVals (totalsByCategory [⟨1, .str "abc", some "A", none, "2024-01-01"⟩,
        ⟨2, .num 5, some "A", none, "2024-01-01"⟩]) = some 5
    ∧ totalSpending [⟨1, .str "abc", some "A", none, "2024-01-01"⟩,
        ⟨2, .num 5, some "A", none, "2024-01-01"⟩] = none
    ∧ some (5 : ℚ) ≠ (none : Option ℚ) := by
  refine ⟨?_, by decide, by decide⟩
  simp [totalsByCategory, totalsStep, objGet, objSet, catOf, amountContrib,
    JSVal.truthy, JSVal.toNum, numTruthy, jsAdd, sumVals, jsStrToNum, trimChars,
    readDecimal, readDigits, parseSign]

/-! ### Grouping and enumeration order -/

theorem lookupQ_addToTotals (m : List (String × ℚ)) (k kk : String) (q : ℚ) :
    lookupQ (addToTotals m k q) kk
      = if kk = k then some ((lookupQ m kk).getD 0 + q) else lookupQ m kk := by
  induction m with
  | nil =>
    by_cases h : kk = k
    · subst h; simp [addToTotals, lookupQ]
    · have h' : ¬ k = kk := fun e => h e.symm
      simp [addToTotals, lookupQ, h, h']
  | cons p rest ih =>
    obtain ⟨k', v⟩ := p
    by_cases h1 : k' = k
    · subst h1
      by_cases h2 : k' = kk
      · subst h2
        simp [addToTotals, lookupQ]
      · have h2' : ¬ kk = k' := fun e => h2 e.symm
        simp [addToTotals, lookupQ, h2, h2']
    · by_cases h2 : k' = kk
      · subst h2
        have h1' : ¬ k' = k := h1
        simp [addToTotals, lookupQ, h1, h1']
      · simp [addToTotals, lookupQ, h1, h2, ih]

theorem specSumFor_cons (r : Record) (rs : List Record) (k : String) :
    specSumFor (r :: rs) k
      = (if catOf r = k then contribQ r else 0) + specSumFor rs k := by
  by_cases h : catOf r = k <;> simp [specSumFor, h]

theorem lookupQ_specTotals_go (rs : List Record) :
    ∀ (m : List (String × ℚ)) (k : String),
      lookupQ (rs.foldl (fun m e => addToTotals m (catOf e) (contribQ e)) m) k
        = if k ∈ rs.map catOf ∨ (lookupQ m k).isSome = true
          then some ((lookupQ m k).getD 0 + specSumFor rs k)
          else none := by
  induction rs with
  | nil =>
    intro m k
    simp only [List.foldl_nil, List.map_nil, List.not_mem_nil, false_or]
    cases h : lookupQ m k <;> simp [h, specSumFor]
  | cons r rs ih =>
    intro m k
    simp only [List.foldl_cons]
    rw [ih (addToTotals m (catOf r) (contribQ r)) k, lookupQ_addToTotals,
      specSumFor_cons]
    by_cases hk : k = catOf r
    · have hk' : catOf r = k := hk.symm
      simp only [if_pos hk, if_pos hk', List.map_cons, List.mem_cons]
      simp [hk, add_assoc]
    · have hk' : ¬ catOf r = k := fun h => hk h.symm
      simp only [if_neg hk, if_neg hk', List.map_cons, List.mem_cons, zero_add]
      have : (k = catOf r ∨ k ∈ List.map catOf rs) ↔ k ∈ List.map catOf rs := by
        constructor
        · rintro (h | h)
          · exact absurd h hk
          · exact h
        · exact Or.inr
      simp only [this]

theorem lookupQ_specTotals (rs : List Record) (k : String) :
    lookupQ (specTotals rs) k
      = if k ∈ rs.map catOf then some (specSumFor rs k) else none := by
  unfold specTotals
  rw [lookupQ_specTotals_go rs [] k]
  simp [lookupQ]

theorem keys_addToTotals (m : List (String × ℚ)) (k : String) (q : ℚ) :
    (addToTotals m k q).map Prod.fst
      = if k ∈ m.map Prod.fst then m.map Prod.fst else m.map Prod.fst ++ [k] := by
  induction m with
  | nil => simp [addToTotals]
  | cons p rest ih =>
    obtain ⟨k', v⟩ := p
    by_cases h : k' = k
    · simp [addToTotals, h]
    · have h2 : ¬ k = k' := fun e => h e.symm
      by_cases h3 : k ∈ rest.map Prod.fst <;>
        simp [addToTotals, h, ih, h2, h3]

theorem keys_specTotals_go (rs : List Record) :
    ∀ m : List (String × ℚ),
      ((rs.foldl (fun m e => addToTotals m (catOf e) (contribQ e)) m).map Prod.fst)
        = (rs.map catOf).foldl (fun acc a => if a ∈ acc then acc else acc ++ [a])
            (m.map Prod.fst) := by
  induction rs with
  | nil => intro m; simp
  | cons r rs ih =>
    intro m
    simp only [List.foldl_cons, List.map_cons]
    rw [ih, keys_addToTotals]

theorem keys_specTotals (rs : List Record) :
    (specTotals rs).map Prod.fst = firstSeen (rs.map catOf) := by
  unfold specTotals firstSeen
  rw [keys_specTotals_go rs []]
  simp

theorem keys_mapSome (m : List (String × ℚ)) :
    (mapSome m).map Prod.fst = m.map Prod.fst := by
  induction m with
  | nil => rfl
  | cons p rest ih => simp [mapSome_cons, ih]

instance : IsTotal (String × Option ℚ) (fun p q => idxVal p ≤ idxVal q) :=
  ⟨fun _ _ => Nat.le_total _ _⟩

instance : IsTrans (String × Option ℚ) (fun p q => idxVal p ≤ idxVal q) :=
  ⟨fun _ _ _ => Nat.le_trans⟩

theorem objEntries_perm (m : List (String × Option ℚ)) : (objEntries m).Perm m := by
  unfold objEntries
  have h1 := List.perm_insertionSort (fun p q => idxVal p ≤ idxVal q)
    (m.filter (fun p => (arrayIndexKey p.1).isSome))
  exact (h1.append_right _).trans (List.filter_append_perm _ m)

theorem objEntries_filter_not_idx (m : List (String × Option ℚ)) :
    (objEntries m).filter (fun p => !(arrayIndexKey p.1).isSome)
      = m.filter (fun p => !(arrayIndexKey p.1).isSome) := by
  unfold objEntries
  rw [List.filter_append]
  have h1 : (List.insertionSort (fun p q => idxVal p ≤ idxVal q)
      (m.filter (fun p => (arrayIndexKey p.1).isSome))).filter
        (fun p => !(arrayIndexKey p.1).isSome) = [] := by
    rw [List.filter_eq_nil_iff]
    intro a ha
    have hmem : a ∈ m.filter (fun p => (arrayIndexKey p.1).isSome) :=
      (List.mem_insertionSort _).mp ha
    have := (List.mem_filter.mp hmem).2
    simp_all
  have h2 : ((m.filter (fun p => !(arrayIndexKey p.1).isSome)).filter
      (fun p => !(arrayIndexKey p.1).isSome))
        = m.filter (fun p => !(arrayIndexKey p.1).isSome) := by
    rw [List.filter_filter]
    simp
  rw [h1, h2, List.nil_append]

theorem objEntries_filter_idx (m : List (String × Option ℚ)) :
    (objEntries m).filter (fun p => (arrayIndexKey p.1).isSome)
      = List.insertionSort (fun p q => idxVal p ≤ idxVal q)
          (m.filter (fun p => (arrayIndexKey p.1).isSome)) := by
  unfold objEntries
  rw [List.filter_append]
  have h1 : (List.insertionSort (fun p q => idxVal p ≤ idxVal q)
      (m.filter (fun p => (arrayIndexKey p.1).isSome))).filter
        (fun p => (arrayIndexKey p.1).isSome)
      = List.insertionSort (fun p q => idxVal p ≤ idxVal q)
          (m.filter (fun p => (arrayIndexKey p.1).isSome)) := by
    rw [List.filter_eq_self]
    intro a ha
    have hmem : a ∈ m.filter (fun p => (arrayIndexKey p.1).isSome) :=
      (List.mem_insertionSort _).mp ha
    exact (List.mem_filter.mp hmem).2
  have h2 : ((m.filter (fun p => !(arrayIndexKey p.1).isSome)).filter
      (fun p => (arrayIndexKey p.1).isSome)) = [] := by
    rw [List.filter_eq_nil_iff]
    intro a ha
    have := (List.mem_filter.mp ha).2
    simp_all
  rw [h1, h2, List.append_nil]

theorem objEntries_idx_sorted (m : List (String × Option ℚ)) :
    List.Sorted (fun p q => idxVal p ≤ idxVal q)
      ((objEntries m).filter (fun p => (arrayIndexKey p.1).isSome)) := by
  rw [objEntries_filter_idx]
  exact List.sorted_insertionSort _ _

theorem objEntries_split (m : List (String × Option ℚ)) :
    objEntries m
      = (objEntries m).filter (fun p => (arrayIndexKey p.1).isSome)
        ++ (objEntries m).filter (fun p => !(arrayIndexKey p.1).isSome) := by
  rw [objEntries_filter_idx, objEntries_filter_not_idx]
  rfl

theorem map_fst_filter_not_idx (l : List (String × Option ℚ)) :
    (l.filter (fun p => !(arrayIndexKey p.1).isSome)).map Prod.fst
      = (l.map Prod.fst).filter (fun s => !(arrayIndexKey s).isSome) := by
  induction l with
  | nil => rfl
  | cons a rest ih =>
    rw [List.filter_cons, List.map_cons, List.filter_cons]
    by_cases h : (arrayIndexKey a.1).isSome
    · rw [if_neg (by simp [h]), if_neg (by simp [h])]
      exact ih
    · rw [if_pos (by simp [h]), if_pos (by simp [h]), List.map_cons, ih]

/-- C4 (corrected/amended): over rows whose amounts are each falsy or
numeric, totalsByCategory groups by the category label (missing or empty
label falling back to Uncategorized) and maps every present label to the
exact sum of the contributions of its rows; the underlying object stores
its keys in first-seen order, but the observable entry enumeration puts
the labels that are array-index strings first in ascending numeric order,
followed by the remaining labels in first-seen order. -/
theorem totalsByCategory_spec (rs : List Record)
    (h : ∀ r ∈ rs, amountSane r = true) :
    totalsByCategory rs = mapSome (specTotals rs)
    ∧ (∀ k, lookupQ (specTotals rs) k
        = if k ∈ rs.map catOf then some (specSumFor rs k) else none)
    ∧ (totalsByCategory rs).map Prod.fst = firstSeen (rs.map catOf)
    ∧ (objEntries (totalsByCategory rs)).Perm (totalsByCategory rs)
    ∧ objEntries (totalsByCategory rs)
        = (objEntries (totalsByCategory rs)).filter
            (fun p => (arrayIndexKey p.1).isSome)
          ++ (objEntries (totalsByCategory rs)).filter
            (fun p => !(arrayIndexKey p.1).isSome)
    ∧ List.Sorted (fun p q => idxVal p ≤ idxVal q)
        ((objEntries (totalsByCategory rs)).filter
          (fun p => (arrayIndexKey p.1).isSome))
    ∧ ((objEntries (totalsByCategory rs)).filter
          (fun p => !(arrayIndexKey p.1).isSome)).map Prod.fst
        = (firstSeen (rs.map catOf)).filter (fun s => !(arrayIndexKey s).isSome) := by
  have hkeys : (totalsByCategory rs).map Prod.fst = firstSeen (rs.map catOf) := by
    rw [totalsByCategory_mapSome rs h, keys_mapSome, keys_specTotals]
  refine ⟨totalsByCategory_mapSome rs h, lookupQ_specTotals rs, hkeys,
    objEntries_perm _, objEntries_split _, objEntries_idx_sorted _, ?_⟩
  rw [objEntries_filter_not_idx, map_fst_filter_not_idx, hkeys]

/-- Witness for C4 at the specification example: two Food rows of amounts
3 and 2 group into the single entry Food with total 5. -/
theorem totalsByCategory_spec_witness :
    (∀ r ∈ [(⟨1, .num 3, some "Food", none, "2024-01-02"⟩ : Record),
            ⟨2, .num 2, some "Food", none, "2024-01-01"⟩], amountSane r = true)
    ∧ (totalsByCategory [(⟨1, .num 3, some "Food", none, "2024-01-02"⟩ : Record),
          ⟨2, .num 2, some "Food", none, "2024-01-01"⟩]).map Prod.fst
        = firstSeen ([(⟨1, .num 3, some "Food", none, "2024-01-02"⟩ : Record),
            ⟨2, .num 2, some "Food", none, "2024-01-01"⟩].map catOf)
    ∧ totalsByCategory [(⟨1, .num 3, some "Food", none, "2024-01-02"⟩ : Record),
          ⟨2, .num 2, some "Food", none, "2024-01-01"⟩] = [("Food", some 5)]
    ∧ objEntries [("Food", some (5 : ℚ))] = [("Food", some 5)] := by
  refine ⟨by decide, (totalsByCategory_spec _ (by decide)).2.2.1, ?_, by decide⟩
  simp [totalsByCategory, totalsStep, objGet, objSet, catOf, amountContrib,
    JSVal.truthy, JSVal.toNum, numTruthy, jsAdd]
  norm_num

/-- C4 counterexample: with categories Food then 2 (both with plain
numeric amounts), the first-seen order is Food before 2, but the entries
of the totals object enumerate as 2 before Food, because the key 2 is an
array-index string; so the claimed first-appearance entry order fails on
the code. -/
theorem totalsByCategory_order_cex :
    firstSeen ([(⟨1, .num 3, some "Food", none, "2024-01-01"⟩ : Record),
        ⟨2, .num 1, some "2", none, "2024-01-01"⟩].map catOf) = ["Food", "2"]
    ∧ (objEntries (totalsByCategory [(⟨1, .num 3, some "Food", none, "2024-01-01"⟩ : Record),
        ⟨2, .num 1, some "2", none, "2024-01-01"⟩])).map Prod.fst = ["2", "Food"]
    ∧ (["2", "Food"] : List String) ≠ ["Food", "2"] := by
  refine ⟨by decide, ?_, by decide⟩
  simp [totalsByCategory, totalsStep, objEntries, objGet, objSet, catOf,
    amountContrib, JSVal.truthy, JSVal.toNum, numTruthy, jsAdd, arrayIndexKey,
    idxVal, digToNat]

/-! ### Chart lemmas -/

theorem foldl_jsMax2_somes (l : List (Option ℚ)) (hl : ∀ v ∈ l, v.isSome = true) :
    ∀ a : ℚ, l.foldl jsMax2 (some a)
      = some (l.foldl (fun m v => max m (v.getD 0)) a) := by
  induction l with
  | nil => intro a; simp
  | cons v rest ih =>
    intro a
    obtain ⟨q, rfl⟩ := Option.isSome_iff_exists.mp (hl v (by simp))
    have hrest : ∀ x ∈ rest, x.isSome = true := fun x hx => hl x (by simp [hx])
    rw [List.foldl_cons, List.foldl_cons]
    have hstep : jsMax2 (some a) (some q) = some (max a q) := rfl
    rw [hstep, ih hrest (max a q)]
    simp

theorem jsMaxAmount_somes (l : List (Option ℚ)) (h : ∀ v ∈ l, v.isSome = true) :
    jsMaxAmount l = some (specMaxQ (l.map (fun v => v.getD 0))) := by
  cases l with
  | nil => rfl
  | cons v rest =>
    obtain ⟨q, rfl⟩ := Option.isSome_iff_exists.mp (h v (by simp))
    have hrest : ∀ x ∈ rest, x.isSome = true := fun x hx => h x (by simp [hx])
    show rest.foldl jsMax2 (some q)
      = some (specMaxQ ((some q :: rest).map (fun v => v.getD 0)))
    rw [foldl_jsMax2_somes rest hrest q]
    simp only [List.map_cons, specMaxQ, Option.getD_some]
    congr 1
    rw [List.foldl_map]

/-- C8 (corrected/amended): for a totals object of actual numbers, the
chart series lists the pairs exactly in the enumeration order of the
totals object, maxAmount is the largest amount (0 for an empty series),
and the bar height of a pair is amount / maxAmount * 120 whenever
maxAmount is strictly positive and 0 otherwise (in particular whenever
maxAmount is 0); an empty record set yields an empty series with zero
max. -/
theorem chartData_spec (totals : List (String × Option ℚ))
    (h : ∀ p ∈ totals, (p.2).isSome = true) :
    (chartData totals).1 = objEntries totals
    ∧ (chartData totals).2
        = some (specMaxQ ((objEntries totals).map (fun p => (p.2).getD 0)))
    ∧ (∀ p ∈ (chartData totals).1,
        barHeight p.2 (chartData totals).2
          = if 0 < specMaxQ ((objEntries totals).map (fun p => (p.2).getD 0))
            then some (((p.2).getD 0)
              / specMaxQ ((objEntries totals).map (fun p => (p.2).getD 0)) * 120)
            else some 0)
    ∧ chartData (totalsByCategory []) = ([], some 0) := by
  have hent : ∀ p ∈ objEntries totals, (p.2).isSome = true := fun p hp =>
    h p ((objEntries_perm totals).mem_iff.mp hp)
  have hsnd : ∀ v ∈ (objEntries totals).map Prod.snd, v.isSome = true := by
    intro v hv
    obtain ⟨p, hp, rfl⟩ := List.mem_map.mp hv
    exact hent p hp
  have h2 : (chartData totals).2
      = some (specMaxQ ((objEntries totals).map (fun p => (p.2).getD 0))) := by
    show jsMaxAmount ((objEntries totals).map Prod.snd) = _
    rw [jsMaxAmount_somes _ hsnd, List.map_map]
    rfl
  refine ⟨rfl, h2, ?_, by decide⟩
  intro p hp
  obtain ⟨q, hq⟩ := Option.isSome_iff_exists.mp (hent p hp)
  rw [h2, hq]
  by_cases hM : 0 < specMaxQ ((objEntries totals).map (fun p => (p.2).getD 0))
  · rw [if_pos hM]
    simp [barHeight, numGtZero, hM, hq]
  · rw [if_neg hM]
    simp [barHeight, numGtZero, hM]

/-- Witness for C8 at a two-entry totals object: max 5, and the bar of
amount 2 has height 2 / 5 * 120 = 48. -/
theorem chartData_spec_witness :
    (∀ p ∈ [("Food", some (5 : ℚ)), ("Rent", some (2 : ℚ))], (p.2).isSome = true)
    ∧ (chartData [("Food", some (5 : ℚ)), ("Rent", some (2 : ℚ))]).1
        = objEntries [("Food", some (5 : ℚ)), ("Rent", some (2 : ℚ))]
    ∧ (chartData [("Food", some (5 : ℚ)), ("Rent", some (2 : ℚ))]).2
        = some (specMaxQ ((objEntries [("Food", some (5 : ℚ)),
            ("Rent", some (2 : ℚ))]).map (fun p => (p.2).getD 0)))
    ∧ (chartData [("Food", some (5 : ℚ)), ("Rent", some (2 : ℚ))]).2 = some 5
    ∧ barHeight (some (2 : ℚ))
        ((chartData [("Food", some (5 : ℚ)), ("Rent", some (2 : ℚ))]).2)
        = some 48 := by
  have H := chartData_spec [("Food", some (5 : ℚ)), ("Rent", some (2 : ℚ))]
    (by decide)
  have hmax : (chartData [("Food", some (5 : ℚ)), ("Rent", some (2 : ℚ))]).2
      = some 5 := by decide
  refine ⟨by decide, H.1, H.2.1, hmax, ?_⟩
  rw [hmax]
  norm_num [barHeight, numGtZero]

/-- C8 counterexample: at the totals object mapping A to -5, maxAmount is
-5, which is not 0, yet the code computes bar height 0 where the claimed
formula amount / maxAmount * 120 gives 120; the claimed height rule fails
on the code for a non-positive maximum. -/
theorem chartData_negative_max_cex :
    (chartData [("A", some (-5 : ℚ))]).2 = some (-5)
    ∧ some (-5 : ℚ) ≠ some (0 : ℚ)
    ∧ barHeight (some (-5 : ℚ)) ((chartData [("A", some (-5 : ℚ))]).2) = some 0
    ∧ (-5 : ℚ) / (-5) * 120 = 120
    ∧ some (0 : ℚ) ≠ some (120 : ℚ) := by
  refine ⟨by decide, by decide, by decide, by norm_num, by decide⟩
